import Mathlib

/-!
Shallow embedding of `vector.go` from HyperCodec/vector-go.

The Go `Vector[T]` struct holds a backing slice `data`, a logical length
`len`, a `capacity`, and a growth increment `allocAmount`, all Go `int`s.
We model the backing slice as a `List α`, the three `int` fields as `Int`,
and Go's zero value for `T` (used by `make([]T, n)`) as `default` from an
`Inhabited α` instance.

Failure modes are modelled by an explicit error type:
* `errors.New(OutOfBounds)` (= "index out of bounds") → `outOfBounds`;
* `panic(InvalidAllocAmount)` in the constructors and the error returned by
  `SetAllocAmount` → `invalidAllocAmount`;
* `errors.New(CannotAddAmount)` returned by `AddCapacity` → `cannotAddAmount`
  (the spec calls this failure `InvalidGrowthAmount`);
* the Go runtime panic "makeslice: len out of range" raised by
  `make([]T, capacity)` on a negative capacity → `makesliceLenOutOfRange`;
* the `panic("unreachable")` in `PushFront` → `panicUnreachable`.
-/

deriving instance DecidableEq for Except

namespace VectorGo

inductive VError where
  | outOfBounds
  | invalidAllocAmount
  | cannotAddAmount
  | makesliceLenOutOfRange
  | panicUnreachable
  deriving DecidableEq

/-- The Go struct `Vector[T]` (src/vector.go lines 20-25): backing slice
`data`, logical length `len`, `capacity`, and growth increment
`allocAmount`; the `int` fields are modelled as `Int`. -/
structure Vector (α : Type) where
  data : List α
  len : Int
  capacity : Int
  allocAmount : Int
  deriving DecidableEq

variable {α : Type}

/-- Go's `copy(dst, src)`: overwrites the first `min |dst| |src|` entries of
`dst` with those of `src`, leaving the rest of `dst` unchanged. -/
def goCopyInto (dst src : List α) : List α :=
  src.take dst.length ++ dst.drop src.length

/-- Go's `make([]T, n)`: a slice of `n` zero values. -/
def goMake [Inhabited α] (n : Nat) : List α :=
  List.replicate n default

/-- Function `FromSlice` (src/vector.go lines 32-39). The Go function panics with
`InvalidAllocAmount` when `allocAmount <= 0`; the panic is modelled as an
`Except.error`. -/
def FromSlice (slice : List α) (allocAmount : Int) : Except VError (Vector α) :=
  if allocAmount ≤ 0 then .error .invalidAllocAmount
  else .ok { data := slice, len := slice.length, capacity := slice.length, allocAmount := allocAmount }

/-- Function `Empty` (src/vector.go lines 46-52), panic modelled as an error. -/
def Empty (allocAmount : Int) : Except VError (Vector α) :=
  if allocAmount ≤ 0 then .error .invalidAllocAmount
  else .ok { data := [], len := 0, capacity := 0, allocAmount := allocAmount }

/-- Function `EmptyWithCapacity` (src/vector.go lines 59-65). The code only checks
`allocAmount <= 0` (panic, modelled as an error); it never validates
`capacity`, so `make([]T, capacity)` with a negative `capacity` dies with
the Go runtime panic "makeslice: len out of range", modelled as the
distinct error `makesliceLenOutOfRange`. -/
def EmptyWithCapacity [Inhabited α] (capacity allocAmount : Int) : Except VError (Vector α) :=
  if allocAmount ≤ 0 then .error .invalidAllocAmount
  else if capacity < 0 then .error .makesliceLenOutOfRange
  else .ok { data := goMake capacity.toNat, len := 0, capacity := capacity, allocAmount := allocAmount }

/-- Function `Len` (src/vector.go lines 70-72). -/
def Vector.Len (v : Vector α) : Int :=
  v.len

/-- Function `Capacity` (src/vector.go lines 77-79). -/
def Vector.Capacity (v : Vector α) : Int :=
  v.capacity

/-- Function `AllocAmount` (src/vector.go lines 84-86). -/
def Vector.AllocAmount (v : Vector α) : Int :=
  v.allocAmount

/-- Function `SetAllocAmount` (src/vector.go lines 93-101). -/
def Vector.SetAllocAmount (v : Vector α) (newVal : Int) : Except VError (Vector α) :=
  if newVal ≤ 0 then .error .invalidAllocAmount
  else .ok { v with allocAmount := newVal }

/-- Function `AddCapacity` (src/vector.go lines 108-121): on `amount <= 0` returns
the `CannotAddAmount` error; otherwise bumps `capacity`, allocates
`make([]T, v.capacity)` and copies the old data over.  (`.toNat` clamps a
negative size to `0` where Go's `make` would panic; that point is
unreachable from any well-formed vector, since `capacity ≥ 0` and
`amount > 0` there.) -/
def Vector.AddCapacity [Inhabited α] (v : Vector α) (amount : Int) : Except VError (Vector α) :=
  if amount ≤ 0 then .error .cannotAddAmount
  else
    let newCapacity := v.capacity + amount
    let newSlice := goCopyInto (goMake newCapacity.toNat) v.data
    .ok { v with capacity := newCapacity, data := newSlice }

/-- The pattern `_ = v.AddCapacity(...)` in `PushBack`/`Insert`: the error
is discarded, so on failure the vector is left unchanged. -/
def Vector.addCapacityIgnoreErr [Inhabited α] (v : Vector α) (amount : Int) : Vector α :=
  match v.AddCapacity amount with
  | .ok w => w
  | .error _ => v

/-- Function `IsInBounds` (src/vector.go lines 292-294): `index >= 0 && index < v.len`. -/
def Vector.IsInBounds (v : Vector α) (index : Int) : Bool :=
  decide (index ≥ 0) && decide (index < v.len)

/-- Function `boundsCheck` (src/vector.go lines 281-287); `some e` models the
non-nil error return. -/
def Vector.boundsCheck (v : Vector α) (index : Int) : Option VError :=
  if v.IsInBounds index then none else some .outOfBounds

/-- Function `PushBack` (src/vector.go lines 129-140): grows when `len == capacity`
(ignoring the error), writes `v.data[v.len] = val`, increments `len`.
(`List.set` at an out-of-range position is the identity where Go would
panic; unreachable from a well-formed vector.) -/
def Vector.PushBack [Inhabited α] (v : Vector α) (val : α) : Bool × Vector α :=
  let allocated := v.len == v.capacity
  let v1 := if allocated then v.addCapacityIgnoreErr v.allocAmount else v
  (allocated, { v1 with data := v1.data.set v1.len.toNat val, len := v1.len + 1 })

/-- The `for j := 0; j < v.len; j++` loop of `Insert` (src/vector.go lines
175-183), writing `newData[j]`: `val` at `j == index`, else `v.data[i]`
with `i` incremented.  `fuel` is the number of remaining iterations
(`v.len - j`); the bounds check before the loop guarantees `0 ≤ index`, so
the comparison is carried out on `Nat`.  An out-of-range read `v.data[i]`
is modelled by `getD`'s default; it is unreachable from a well-formed
vector. -/
def insertLoop [Inhabited α] (data : List α) (index : Nat) (val : α) : Nat → Nat → Nat → List α
  | 0, _, _ => []
  | fuel + 1, j, i =>
    if j = index then val :: insertLoop data index val fuel (j + 1) i
    else data.getD i default :: insertLoop data index val fuel (j + 1) (i + 1)

/-- Function `Insert` (src/vector.go lines 161-188): bounds check first, grow when
`len == capacity` (error discarded), increment `len`, then rebuild the
data into a fresh `make([]T, v.capacity)` via the shift loop; slots the
loop does not reach stay at the zero value. -/
def Vector.Insert [Inhabited α] (v : Vector α) (index : Int) (val : α) : Except VError (Bool × Vector α) :=
  match v.boundsCheck index with
  | some e => .error e
  | none =>
    let allocated := v.len == v.capacity
    let v1 := if allocated then v.addCapacityIgnoreErr v.allocAmount else v
    let newLen := v1.len + 1
    let loopData := insertLoop v1.data index.toNat val newLen.toNat 0 0
    let newData := loopData ++ List.replicate (v1.capacity.toNat - newLen.toNat) default
    .ok (allocated, { v1 with len := newLen, data := newData })

/-- Function `PushFront` (src/vector.go lines 147-154): delegates to `Insert(0, val)`
and panics with "unreachable" if that returns an error. -/
def Vector.PushFront [Inhabited α] (v : Vector α) (val : α) : Except VError (Bool × Vector α) :=
  match v.Insert 0 val with
  | .ok r => .ok r
  | .error _ => .error .panicUnreachable

/-- Function `Get` (src/vector.go lines 195-201).  Go returns a pointer into the
backing slice; the claims only concern the value read, so the model
returns the value. -/
def Vector.Get [Inhabited α] (v : Vector α) (index : Int) : Except VError α :=
  match v.boundsCheck index with
  | some e => .error e
  | none => .ok (v.data.getD index.toNat default)

/-- Function `Set` (src/vector.go lines 215-222). -/
def Vector.Set (v : Vector α) (index : Int) (val : α) : Except VError (Vector α) :=
  match v.boundsCheck index with
  | some e => .error e
  | none => .ok { v with data := v.data.set index.toNat val }

/-- Function `Remove` (src/vector.go lines 254-266): bounds check, read the value,
`slices.Delete(v.data, index, index+1)` (= `eraseIdx`), decrement both
`capacity` and `len`. -/
def Vector.Remove [Inhabited α] (v : Vector α) (index : Int) : Except VError (α × Vector α) :=
  match v.boundsCheck index with
  | some e => .error e
  | none =>
    let val := v.data.getD index.toNat default
    .ok (val, { v with data := v.data.eraseIdx index.toNat, capacity := v.capacity - 1, len := v.len - 1 })

/-- Function `Data` (src/vector.go lines 245-247): the live view `v.data[:v.len]`. -/
def Vector.Data (v : Vector α) : List α :=
  v.data.take v.len.toNat

/-- The data-model invariants of the spec (§3): `0 ≤ len ≤ capacity`, the
backing slice's length equals the `capacity` field, and the growth
increment is positive. -/
def Vector.WF (v : Vector α) : Prop :=
  0 ≤ v.len ∧ v.len ≤ v.capacity ∧ (v.data.length : Int) = v.capacity ∧ 1 ≤ v.allocAmount

instance (v : Vector α) : Decidable v.WF := by
  unfold Vector.WF
  exact inferInstance

/-! ### List utilities -/

theorem getD_append_cons (pre suf : List α) (x d : α) :
    (pre ++ x :: suf).getD pre.length d = x := by
  induction pre with
  | nil => simp
  | cons a t ih => simpa using ih

theorem take_succ_set (l : List α) (n : Nat) (val : α) (h : n < l.length) :
    (l.set n val).take (n + 1) = l.take n ++ [val] := by
  rw [List.set_eq_take_cons_drop val h, List.take_append_eq_append_take]
  have hlen : (l.take n).length = n := by
    rw [List.length_take]
    omega
  rw [List.take_of_length_le (by omega), hlen]
  simp

theorem take_of_take (l : List α) (m n : Nat) (h : m ≤ n) :
    (l.take n).take m = l.take m := by
  rw [List.take_take]
  congr 1
  omega

theorem drop_of_take (l : List α) (m n : Nat) (h : m ≤ n) :
    (l.take n).drop m = (l.drop m).take (n - m) := by
  rw [List.take_drop]
  congr 2
  omega

/-! ### The `Insert` shift loop -/

theorem insertLoop_length [Inhabited α] (data : List α) (idx : Nat) (val : α) :
    ∀ fuel j i, (insertLoop data idx val fuel j i).length = fuel := by
  intro fuel
  induction fuel with
  | zero => intro j i; rfl
  | succ n ih =>
    intro j i
    unfold insertLoop
    split <;> simp [ih]

theorem insertLoop_past [Inhabited α] (data : List α) (idx : Nat) (val : α) :
    ∀ fuel j i, idx < j → i + fuel ≤ data.length →
      insertLoop data idx val fuel j i = (data.drop i).take fuel := by
  intro fuel
  induction fuel with
  | zero => intro j i _ _; simp [insertLoop]
  | succ n ih =>
    intro j i hj hi
    have hji : ¬(j = idx) := by omega
    have hix : i < data.length := by omega
    unfold insertLoop
    rw [if_neg hji, ih (j + 1) (i + 1) (by omega) (by omega),
      List.getD_eq_getElem data default hix, List.drop_eq_getElem_cons hix,
      List.take_succ_cons]

theorem insertLoop_main [Inhabited α] (data : List α) (idx : Nat) (val : α) :
    ∀ fuel j i, j ≤ idx → idx < j + fuel → i + fuel ≤ data.length + 1 →
      insertLoop data idx val fuel j i =
        (data.drop i).take (idx - j) ++
          val :: (data.drop (i + (idx - j))).take (fuel - 1 - (idx - j)) := by
  intro fuel
  induction fuel with
  | zero => intro j i h1 h2 _; omega
  | succ n ih =>
    intro j i h1 h2 h3
    by_cases hj : j = idx
    · subst hj
      unfold insertLoop
      rw [if_pos rfl, insertLoop_past data j val n (j + 1) i (by omega) (by omega)]
      simp
    · have hlt : j < idx := by omega
      have hix : i < data.length := by omega
      unfold insertLoop
      rw [if_neg hj, ih (j + 1) (i + 1) (by omega) (by omega) (by omega),
        List.getD_eq_getElem data default hix]
      set k := idx - (j + 1) with hk
      have e1 : idx - j = k + 1 := by omega
      have e2 : i + 1 + k = i + (k + 1) := by omega
      have e3 : n - 1 - k = n + 1 - 1 - (k + 1) := by omega
      rw [e1, e2, e3, List.drop_eq_getElem_cons hix, List.take_succ_cons,
        List.cons_append]

theorem getD_take {l : List α} {n i : Nat} (d : α) (h : i < n) :
    (l.take n).getD i d = l.getD i d := by
  simp only [List.getD_eq_getElem?_getD]
  rw [List.getElem?_take]
  simp [h]

theorem drop_append_cons (pre suf : List α) (x : α) :
    (pre ++ x :: suf).drop (pre.length + 1) = suf := by
  induction pre with
  | nil => simp
  | cons a t ih => simp [ih]

theorem Data_length (v : Vector α) (hw : v.WF) : v.Data.length = v.len.toNat := by
  obtain ⟨hl0, hlc, hdl, _⟩ := hw
  simp only [Vector.Data, List.length_take]
  omega

/-! ### Bounds checking -/

theorem IsInBounds_iff {v : Vector α} {index : Int} :
    v.IsInBounds index = true ↔ 0 ≤ index ∧ index < v.len := by
  simp [Vector.IsInBounds, ge_iff_le]

theorem boundsCheck_none {v : Vector α} {index : Int} (h0 : 0 ≤ index) (h1 : index < v.len) :
    v.boundsCheck index = none := by
  rw [Vector.boundsCheck, if_pos (IsInBounds_iff.mpr ⟨h0, h1⟩)]

theorem boundsCheck_some {v : Vector α} {index : Int} (h : index < 0 ∨ v.len ≤ index) :
    v.boundsCheck index = some .outOfBounds := by
  have hni : ¬(v.IsInBounds index = true) := by
    rw [IsInBounds_iff]
    omega
  rw [Vector.boundsCheck, if_neg hni]

/-! ### Growth -/

theorem AddCapacity_pos [Inhabited α] (v : Vector α) (amount : Int)
    (hpos : 0 < amount) (hlen : (v.data.length : Int) = v.capacity) :
    v.AddCapacity amount =
      .ok { v with capacity := v.capacity + amount,
                   data := v.data ++ List.replicate amount.toNat default } := by
  have hN : (v.capacity + amount).toNat = v.data.length + amount.toNat := by omega
  simp only [Vector.AddCapacity, goCopyInto, goMake, List.length_replicate,
    List.drop_replicate, hN]
  rw [if_neg (by omega), List.take_of_length_le (by omega)]
  simp

theorem addCapacityIgnoreErr_full [Inhabited α] (v : Vector α)
    (hinc : 1 ≤ v.allocAmount) (hlen : (v.data.length : Int) = v.capacity) :
    v.addCapacityIgnoreErr v.allocAmount =
      { v with capacity := v.capacity + v.allocAmount,
               data := v.data ++ List.replicate v.allocAmount.toNat default } := by
  unfold Vector.addCapacityIgnoreErr
  rw [AddCapacity_pos v v.allocAmount (by omega) hlen]

/-! ### Operation specifications -/

theorem PushBack_spec [Inhabited α] (v : Vector α) (val : α) (hw : v.WF) :
    ∃ w, v.PushBack val = ((v.len == v.capacity), w) ∧ w.WF ∧
      w.len = v.len + 1 ∧ w.allocAmount = v.allocAmount ∧
      w.capacity = (if v.len = v.capacity then v.capacity + v.allocAmount else v.capacity) ∧
      w.Data = v.Data ++ [val] := by
  obtain ⟨hl0, hlc, hdl, hai⟩ := hw
  have hsucc : (v.len + 1).toNat = v.len.toNat + 1 := by omega
  by_cases hfull : v.len = v.capacity
  · have hb : (v.len == v.capacity) = true := by simp [hfull]
    have hnlen : v.len.toNat = v.data.length := by omega
    have key : v.PushBack val =
        ((v.len == v.capacity),
          { data := (v.data ++ List.replicate v.allocAmount.toNat default).set v.len.toNat val,
            len := v.len + 1, capacity := v.capacity + v.allocAmount,
            allocAmount := v.allocAmount }) := by
      simp only [Vector.PushBack]
      rw [if_pos hb, addCapacityIgnoreErr_full v hai hdl]
    refine ⟨_, key, ?_, rfl, rfl, ?_, ?_⟩
    · refine ⟨show (0 : Int) ≤ v.len + 1 by omega,
        show v.len + 1 ≤ v.capacity + v.allocAmount by omega, ?_, hai⟩
      show (((v.data ++ List.replicate v.allocAmount.toNat default).set v.len.toNat val).length : Int)
          = v.capacity + v.allocAmount
      simp only [List.length_set, List.length_append, List.length_replicate]
      push_cast
      omega
    · simp [hfull]
    · show Vector.Data _ = _
      simp only [Vector.Data, hsucc]
      rw [take_succ_set _ _ _ (by simp only [List.length_append, List.length_replicate]; omega)]
      rw [hnlen, List.take_left, List.take_length]
  · have hb : (v.len == v.capacity) = false := by simp [hfull]
    have hlt : v.len.toNat < v.data.length := by omega
    have key : v.PushBack val =
        ((v.len == v.capacity),
          { data := v.data.set v.len.toNat val, len := v.len + 1,
            capacity := v.capacity, allocAmount := v.allocAmount }) := by
      simp only [Vector.PushBack]
      rw [if_neg (by simp [hb])]
    refine ⟨_, key, ?_, rfl, rfl, ?_, ?_⟩
    · exact ⟨show (0 : Int) ≤ v.len + 1 by omega, show v.len + 1 ≤ v.capacity by omega,
        show ((v.data.set v.len.toNat val).length : Int) = v.capacity by
          simpa [List.length_set] using hdl, hai⟩
    · simp [hfull]
    · show Vector.Data _ = _
      simp only [Vector.Data, hsucc]
      rw [take_succ_set _ _ _ hlt]

theorem insertLoop_take_spec [Inhabited α] (data : List α) (idx n : Nat) (val : α)
    (h1 : idx < n) (h2 : n ≤ data.length) :
    insertLoop data idx val (n + 1) 0 0 =
      (data.take n).take idx ++ val :: (data.take n).drop idx := by
  rw [insertLoop_main data idx val (n + 1) 0 0 (by omega) (by omega) (by omega),
    take_of_take data idx n (by omega), drop_of_take data idx n (by omega)]
  simp

theorem Insert_spec [Inhabited α] (v : Vector α) (index : Int) (val : α) (hw : v.WF)
    (h0 : 0 ≤ index) (h1 : index < v.len) :
    ∃ w, v.Insert index val = .ok ((v.len == v.capacity), w) ∧ w.WF ∧
      w.len = v.len + 1 ∧ w.allocAmount = v.allocAmount ∧
      w.capacity = (if v.len = v.capacity then v.capacity + v.allocAmount else v.capacity) ∧
      w.Data = v.Data.take index.toNat ++ val :: v.Data.drop index.toNat := by
  obtain ⟨hl0, hlc, hdl, hai⟩ := hw
  have hsucc : (v.len + 1).toNat = v.len.toNat + 1 := by omega
  have hidx : index.toNat < v.len.toNat := by omega
  by_cases hfull : v.len = v.capacity
  · have hb : (v.len == v.capacity) = true := by simp [hfull]
    set data1 : List α := v.data ++ List.replicate v.allocAmount.toNat default with hd1
    set loopData : List α := insertLoop data1 index.toNat val ((v.len + 1).toNat) 0 0 with hld
    have hd1len : data1.length = v.data.length + v.allocAmount.toNat := by
      rw [hd1, List.length_append, List.length_replicate]
    have hll : loopData.length = v.len.toNat + 1 :=
      (insertLoop_length data1 index.toNat val ((v.len + 1).toNat) 0 0).trans hsucc
    have key : v.Insert index val =
        .ok ((v.len == v.capacity),
          { data := loopData ++
              List.replicate ((v.capacity + v.allocAmount).toNat - (v.len + 1).toNat) default,
            len := v.len + 1, capacity := v.capacity + v.allocAmount,
            allocAmount := v.allocAmount }) := by
      simp only [Vector.Insert, boundsCheck_none h0 h1]
      rw [if_pos hb, addCapacityIgnoreErr_full v hai hdl]
    refine ⟨_, key, ?_, rfl, rfl, ?_, ?_⟩
    · refine ⟨show (0 : Int) ≤ v.len + 1 by omega,
        show v.len + 1 ≤ v.capacity + v.allocAmount by omega, ?_, hai⟩
      show ((loopData ++
          List.replicate ((v.capacity + v.allocAmount).toNat - (v.len + 1).toNat) default).length : Int)
          = v.capacity + v.allocAmount
      rw [List.length_append, hll, List.length_replicate]
      push_cast
      omega
    · simp [hfull]
    · show Vector.Data _ = _
      simp only [Vector.Data]
      rw [hsucc, List.take_left' (hll.trans rfl)]
      rw [hld, hsucc, insertLoop_take_spec data1 index.toNat v.len.toNat val hidx (by omega)]
      rw [hd1, List.take_append_of_le_length (by omega)]
  · have hb : (v.len == v.capacity) = false := by simp [hfull]
    set loopData : List α := insertLoop v.data index.toNat val ((v.len + 1).toNat) 0 0 with hld
    have hll : loopData.length = v.len.toNat + 1 :=
      (insertLoop_length v.data index.toNat val ((v.len + 1).toNat) 0 0).trans hsucc
    have key : v.Insert index val =
        .ok ((v.len == v.capacity),
          { data := loopData ++ List.replicate (v.capacity.toNat - (v.len + 1).toNat) default,
            len := v.len + 1, capacity := v.capacity, allocAmount := v.allocAmount }) := by
      simp only [Vector.Insert, boundsCheck_none h0 h1]
      rw [if_neg (by simp [hb])]
    refine ⟨_, key, ?_, rfl, rfl, ?_, ?_⟩
    · refine ⟨show (0 : Int) ≤ v.len + 1 by omega, show v.len + 1 ≤ v.capacity by omega, ?_, hai⟩
      show ((loopData ++
          List.replicate (v.capacity.toNat - (v.len + 1).toNat) default).length : Int) = v.capacity
      rw [List.length_append, hll, List.length_replicate]
      push_cast
      omega
    · simp [hfull]
    · show Vector.Data _ = _
      simp only [Vector.Data]
      rw [hsucc, List.take_left' (hll.trans rfl)]
      rw [hld, hsucc, insertLoop_take_spec v.data index.toNat v.len.toNat val hidx (by omega)]

theorem Remove_spec [Inhabited α] (v : Vector α) (index : Int) (hw : v.WF)
    (h0 : 0 ≤ index) (h1 : index < v.len) :
    ∃ w, v.Remove index = .ok (v.Data.getD index.toNat default, w) ∧ w.WF ∧
      w.len = v.len - 1 ∧ w.capacity = v.capacity - 1 ∧ w.allocAmount = v.allocAmount ∧
      w.Data = v.Data.take index.toNat ++ v.Data.drop (index.toNat + 1) := by
  obtain ⟨hl0, hlc, hdl, hai⟩ := hw
  have hidx : index.toNat < v.len.toNat := by omega
  have hidxd : index.toNat < v.data.length := by omega
  have key : v.Remove index =
      .ok (v.data.getD index.toNat default,
        { data := v.data.eraseIdx index.toNat, len := v.len - 1,
          capacity := v.capacity - 1, allocAmount := v.allocAmount }) := by
    simp only [Vector.Remove, boundsCheck_none h0 h1]
  have hval : v.Data.getD index.toNat default = v.data.getD index.toNat default :=
    getD_take default hidx
  rw [hval]
  refine ⟨_, key, ?_, rfl, rfl, rfl, ?_⟩
  · refine ⟨show (0 : Int) ≤ v.len - 1 by omega, show v.len - 1 ≤ v.capacity - 1 by omega, ?_, hai⟩
    show ((v.data.eraseIdx index.toNat).length : Int) = v.capacity - 1
    rw [List.length_eraseIdx_of_lt hidxd]
    omega
  · show Vector.Data _ = _
    simp only [Vector.Data]
    have hpred : (v.len - 1).toNat = v.len.toNat - 1 := by omega
    have htl : (v.data.take index.toNat).length = index.toNat := by
      rw [List.length_take]
      omega
    rw [hpred, List.eraseIdx_eq_take_drop_succ, List.take_append_eq_append_take, htl,
      List.take_take, take_of_take v.data index.toNat v.len.toNat (by omega),
      drop_of_take v.data (index.toNat + 1) v.len.toNat (by omega)]
    have e1 : min (v.len.toNat - 1) index.toNat = index.toNat := by omega
    have e2 : v.len.toNat - 1 - index.toNat = v.len.toNat - (index.toNat + 1) := by omega
    rw [e1, e2]

/-! ### Failure paths -/

theorem Get_err [Inhabited α] (v : Vector α) (index : Int) (h : index < 0 ∨ v.len ≤ index) :
    v.Get index = .error .outOfBounds := by
  simp only [Vector.Get, boundsCheck_some h]

theorem Set_err (v : Vector α) (index : Int) (val : α) (h : index < 0 ∨ v.len ≤ index) :
    v.Set index val = .error .outOfBounds := by
  simp only [Vector.Set, boundsCheck_some h]

theorem Remove_err [Inhabited α] (v : Vector α) (index : Int) (h : index < 0 ∨ v.len ≤ index) :
    v.Remove index = .error .outOfBounds := by
  simp only [Vector.Remove, boundsCheck_some h]

theorem Insert_err [Inhabited α] (v : Vector α) (index : Int) (val : α)
    (h : index < 0 ∨ v.len ≤ index) :
    v.Insert index val = .error .outOfBounds := by
  simp only [Vector.Insert, boundsCheck_some h]

theorem Insert_ok_bounds [Inhabited α] {v : Vector α} {index : Int} {val : α}
    {r : Bool × Vector α} (h : v.Insert index val = .ok r) : 0 ≤ index ∧ index < v.len := by
  by_cases hb : 0 ≤ index ∧ index < v.len
  · exact hb
  · rw [Insert_err v index val (by omega)] at h
    simp at h

theorem Remove_ok_bounds [Inhabited α] {v : Vector α} {index : Int}
    {r : α × Vector α} (h : v.Remove index = .ok r) : 0 ≤ index ∧ index < v.len := by
  by_cases hb : 0 ≤ index ∧ index < v.len
  · exact hb
  · rw [Remove_err v index (by omega)] at h
    simp at h

theorem Set_ok_bounds {v : Vector α} {index : Int} {val : α}
    {w : Vector α} (h : v.Set index val = .ok w) : 0 ≤ index ∧ index < v.len := by
  by_cases hb : 0 ≤ index ∧ index < v.len
  · exact hb
  · rw [Set_err v index val (by omega)] at h
    simp at h

theorem PushFront_err [Inhabited α] (v : Vector α) (val : α) (h : v.len ≤ 0) :
    v.PushFront val = .error .panicUnreachable := by
  simp only [Vector.PushFront, Insert_err v 0 val (by omega)]

theorem PushFront_spec [Inhabited α] (v : Vector α) (val : α) (hw : v.WF) (hpos : 0 < v.len) :
    ∃ w, v.PushFront val = .ok ((v.len == v.capacity), w) ∧ w.WF ∧
      w.len = v.len + 1 ∧ w.allocAmount = v.allocAmount ∧
      w.capacity = (if v.len = v.capacity then v.capacity + v.allocAmount else v.capacity) ∧
      w.Data = val :: v.Data := by
  obtain ⟨w, hins, hwf, hlen, hall, hcap, hdata⟩ := Insert_spec v 0 val hw le_rfl hpos
  refine ⟨w, ?_, hwf, hlen, hall, hcap, ?_⟩
  · simp only [Vector.PushFront, hins]
  · simpa using hdata

-- Sanity checks mirroring the Go unit tests (`TestPushRemove`, `TestInsert`).

example : (Vector.PushBack ⟨[], 0, 0, 5⟩ (1 : Int)) = (true, ⟨[1, 0, 0, 0, 0], 1, 5, 5⟩) := by decide

example : (Vector.Insert ⟨[1, 2, 3, 0, 0], 3, 5, 5⟩ 0 (4 : Int)) = .ok (false, ⟨[4, 1, 2, 3, 0], 4, 5, 5⟩) := by decide

example : (Vector.Remove ⟨[4, 1, 2, 3, 0], 4, 5, 5⟩ 1) = .ok ((1 : Int), ⟨[4, 2, 3, 0], 3, 4, 5⟩) := by decide

example : (Vector.Insert ⟨[1, 2, 3], 3, 3, 5⟩ 1 (4 : Int)) = .ok (true, ⟨[1, 4, 2, 3, 0, 0, 0, 0], 4, 8, 5⟩) := by decide

/-! ### Claims -/

/-- Claim **C1** (code-bug evidence).  The claim says `PushBack(v)` behaves like
`Insert(length, v)`, `PushFront(v)` behaves like `Insert(0, v)`, and
neither can fail, even on an empty vector.  In the code, `Insert` reuses
the `0 ≤ index < len` bounds check, so the append position `index = len`
is always rejected: on the empty vector from `Empty(5)`, `Insert(0, ·)`
fails and `PushFront` reaches its `panic("unreachable")`, while `PushBack`
succeeds; on a full one-element vector, `Insert(1, ·)` (the append
position) fails while `PushBack` succeeds and grows. -/
theorem C1_pushfront_empty_panics :
    (Empty 5 : Except VError (Vector Int)) = .ok ⟨[], 0, 0, 5⟩ ∧
    Vector.PushFront (⟨[], 0, 0, 5⟩ : Vector Int) 7 = .error .panicUnreachable ∧
    Vector.Insert (⟨[], 0, 0, 5⟩ : Vector Int) 0 7 = .error .outOfBounds ∧
    Vector.PushBack (⟨[10], 1, 1, 5⟩ : Vector Int) 7 = (true, ⟨[10, 7, 0, 0, 0, 0], 2, 6, 5⟩) ∧
    Vector.Insert (⟨[10], 1, 1, 5⟩ : Vector Int) 1 7 = .error .outOfBounds := by
  decide

/-- Claim **C2** (code-bug evidence).  The claim says `Insert(index, v)` succeeds
for every `0 ≤ index ≤ n` (the append position `index = n` included).  The
code's bounds check is `0 ≤ index < len`, so on the well-formed vector
`[10, 20]` of length 2, `Insert(2, 99)` is rejected with
`IndexOutOfBounds`. -/
theorem C2_insert_rejects_append_index :
    Vector.WF (⟨[10, 20], 2, 2, 1⟩ : Vector Int) ∧
    Vector.Insert (⟨[10, 20], 2, 2, 1⟩ : Vector Int) 2 99 = .error .outOfBounds := by
  decide

/-- Claim **C3**: for every well-formed vector and every index accepted by
`Insert`'s validation, insertion succeeds, `len` grows by exactly one, and
the live elements become `e_0..e_{index-1}, val, e_index..e_{n-1}` (each
element previously at position ≥ `index` moved one slot right, relative
order preserved). -/
theorem C3_insert_shifts_right [Inhabited α] (v : Vector α) (index : Int) (val : α)
    (hw : v.WF) (hb : v.IsInBounds index = true) :
    ∃ b w, v.Insert index val = .ok (b, w) ∧ w.len = v.len + 1 ∧
      w.Data = v.Data.take index.toNat ++ val :: v.Data.drop index.toNat := by
  obtain ⟨h0, h1⟩ := IsInBounds_iff.mp hb
  obtain ⟨w, hins, _, hlen, _, _, hdata⟩ := Insert_spec v index val hw h0 h1
  exact ⟨_, w, hins, hlen, hdata⟩

theorem C3_witness :
    (Vector.WF (⟨[10, 20, 30], 3, 3, 2⟩ : Vector Int) ∧
      Vector.IsInBounds (⟨[10, 20, 30], 3, 3, 2⟩ : Vector Int) 1 = true) ∧
    (∃ b w, Vector.Insert (⟨[10, 20, 30], 3, 3, 2⟩ : Vector Int) 1 99 = .ok (b, w) ∧
      w.len = (⟨[10, 20, 30], 3, 3, 2⟩ : Vector Int).len + 1 ∧
      w.Data = (⟨[10, 20, 30], 3, 3, 2⟩ : Vector Int).Data.take (1 : Int).toNat ++
        99 :: (⟨[10, 20, 30], 3, 3, 2⟩ : Vector Int).Data.drop (1 : Int).toNat) :=
  ⟨⟨by decide, by decide⟩, C3_insert_shifts_right _ 1 99 (by decide) (by decide)⟩

/-- Claim **C4**: for every well-formed vector with live elements
`pre ++ x :: suf` and `index = |pre|`, `Remove(index)` returns `x`, the
live elements become `pre ++ suf` (subsequent elements shifted left, order
preserved), and both `len` and `capacity` decrease by exactly one. -/
theorem C4_remove_shifts_left [Inhabited α] (v : Vector α) (index : Int)
    (pre suf : List α) (x : α) (hw : v.WF) (h0 : 0 ≤ index)
    (hd : v.Data = pre ++ x :: suf) (hl : pre.length = index.toNat) :
    ∃ w, v.Remove index = .ok (x, w) ∧ w.Data = pre ++ suf ∧
      w.len = v.len - 1 ∧ w.capacity = v.capacity - 1 := by
  have hDlen : v.Data.length = v.len.toNat := Data_length v hw
  have h1 : index < v.len := by
    obtain ⟨hl0, _, _, _⟩ := hw
    have hc : v.Data.length = pre.length + (suf.length + 1) := by simp [hd]
    omega
  obtain ⟨w, hrem, _, hlen, hcap, _, hdata⟩ := Remove_spec v index hw h0 h1
  have hx : v.Data.getD index.toNat default = x := by
    rw [hd, ← hl, getD_append_cons]
  rw [hx] at hrem
  refine ⟨w, hrem, ?_, hlen, hcap⟩
  rw [hdata, hd, ← hl, List.take_left, drop_append_cons]

theorem C4_witness :
    (Vector.WF (⟨[10, 20, 30], 3, 3, 2⟩ : Vector Int) ∧ (0 : Int) ≤ 1 ∧
      (⟨[10, 20, 30], 3, 3, 2⟩ : Vector Int).Data = [10] ++ 20 :: [30] ∧
      ([10] : List Int).length = (1 : Int).toNat) ∧
    (∃ w, Vector.Remove (⟨[10, 20, 30], 3, 3, 2⟩ : Vector Int) 1 = .ok (20, w) ∧
      w.Data = [10] ++ [30] ∧
      w.len = (⟨[10, 20, 30], 3, 3, 2⟩ : Vector Int).len - 1 ∧
      w.capacity = (⟨[10, 20, 30], 3, 3, 2⟩ : Vector Int).capacity - 1) :=
  ⟨⟨by decide, by decide, by decide, by decide⟩,
    C4_remove_shifts_left _ 1 [10] [30] 20 (by decide) (by decide) (by decide) (by decide)⟩

/-- Claim **C5**: for every successful `PushBack`, `PushFront` or `Insert` on a
well-formed vector, growth is reported `true` exactly when
`len == capacity` held at the start, and the capacity afterwards is
`old capacity + allocAmount` when growth occurred and unchanged
otherwise (growth happens exactly once, never more). -/
theorem C5_growth_iff_full [Inhabited α] (v : Vector α) (val : α) (index : Int) (hw : v.WF) :
    ((v.PushBack val).1 = true ↔ v.len = v.capacity) ∧
    (v.PushBack val).2.capacity =
      (if v.len = v.capacity then v.capacity + v.allocAmount else v.capacity) ∧
    (∀ b w, v.Insert index val = .ok (b, w) →
      (b = true ↔ v.len = v.capacity) ∧
        w.capacity = (if v.len = v.capacity then v.capacity + v.allocAmount else v.capacity)) ∧
    (∀ b w, v.PushFront val = .ok (b, w) →
      (b = true ↔ v.len = v.capacity) ∧
        w.capacity = (if v.len = v.capacity then v.capacity + v.allocAmount else v.capacity)) := by
  obtain ⟨w0, hpb, _, _, _, hcap0, _⟩ := PushBack_spec v val hw
  refine ⟨?_, ?_, ?_, ?_⟩
  · rw [hpb]
    simp
  · rw [hpb]
    exact hcap0
  · intro b w h
    obtain ⟨h0, h1⟩ := Insert_ok_bounds h
    obtain ⟨w', hins, _, _, _, hcap, _⟩ := Insert_spec v index val hw h0 h1
    rw [hins] at h
    simp only [Except.ok.injEq, Prod.mk.injEq] at h
    obtain ⟨hb', hw'⟩ := h
    rw [← hb', ← hw']
    exact ⟨by simp, hcap⟩
  · intro b w h
    by_cases hpos : 0 < v.len
    · obtain ⟨w', hpf, _, _, _, hcap, _⟩ := PushFront_spec v val hw hpos
      rw [hpf] at h
      simp only [Except.ok.injEq, Prod.mk.injEq] at h
      obtain ⟨hb', hw'⟩ := h
      rw [← hb', ← hw']
      exact ⟨by simp, hcap⟩
    · rw [PushFront_err v val (by omega)] at h
      simp at h

theorem C5_witness :
    Vector.WF (⟨[10, 20, 30], 3, 3, 2⟩ : Vector Int) ∧
    (((Vector.PushBack (⟨[10, 20, 30], 3, 3, 2⟩ : Vector Int) 7).1 = true ↔
        (⟨[10, 20, 30], 3, 3, 2⟩ : Vector Int).len = (⟨[10, 20, 30], 3, 3, 2⟩ : Vector Int).capacity) ∧
      (Vector.PushBack (⟨[10, 20, 30], 3, 3, 2⟩ : Vector Int) 7).2.capacity =
        (if (⟨[10, 20, 30], 3, 3, 2⟩ : Vector Int).len = (⟨[10, 20, 30], 3, 3, 2⟩ : Vector Int).capacity
          then (⟨[10, 20, 30], 3, 3, 2⟩ : Vector Int).capacity + (⟨[10, 20, 30], 3, 3, 2⟩ : Vector Int).allocAmount
          else (⟨[10, 20, 30], 3, 3, 2⟩ : Vector Int).capacity) ∧
      (∀ b w, Vector.Insert (⟨[10, 20, 30], 3, 3, 2⟩ : Vector Int) 1 7 = .ok (b, w) →
        (b = true ↔ (⟨[10, 20, 30], 3, 3, 2⟩ : Vector Int).len = (⟨[10, 20, 30], 3, 3, 2⟩ : Vector Int).capacity) ∧
          w.capacity = (if (⟨[10, 20, 30], 3, 3, 2⟩ : Vector Int).len = (⟨[10, 20, 30], 3, 3, 2⟩ : Vector Int).capacity
            then (⟨[10, 20, 30], 3, 3, 2⟩ : Vector Int).capacity + (⟨[10, 20, 30], 3, 3, 2⟩ : Vector Int).allocAmount
            else (⟨[10, 20, 30], 3, 3, 2⟩ : Vector Int).capacity)) ∧
      (∀ b w, Vector.PushFront (⟨[10, 20, 30], 3, 3, 2⟩ : Vector Int) 7 = .ok (b, w) →
        (b = true ↔ (⟨[10, 20, 30], 3, 3, 2⟩ : Vector Int).len = (⟨[10, 20, 30], 3, 3, 2⟩ : Vector Int).capacity) ∧
          w.capacity = (if (⟨[10, 20, 30], 3, 3, 2⟩ : Vector Int).len = (⟨[10, 20, 30], 3, 3, 2⟩ : Vector Int).capacity
            then (⟨[10, 20, 30], 3, 3, 2⟩ : Vector Int).capacity + (⟨[10, 20, 30], 3, 3, 2⟩ : Vector Int).allocAmount
            else (⟨[10, 20, 30], 3, 3, 2⟩ : Vector Int).capacity))) :=
  ⟨by decide, C5_growth_iff_full _ 7 1 (by decide)⟩

/-- Claim **C6**: on a well-formed vector, `AddCapacity(amount)` with
`amount > 0` succeeds, increases `capacity` by exactly `amount`, keeps the
length, growth increment and all live elements (in order) unchanged; with
`amount ≤ 0` it fails with the `CannotAddAmount` error (the spec's
`InvalidGrowthAmount`), leaving the vector untouched. -/
theorem C6_addCapacity_spec [Inhabited α] (v : Vector α) (amount : Int) (hw : v.WF) :
    (0 < amount → ∃ w, v.AddCapacity amount = .ok w ∧
      w.capacity = v.capacity + amount ∧ w.len = v.len ∧
      w.allocAmount = v.allocAmount ∧ w.Data = v.Data ∧ w.WF) ∧
    (amount ≤ 0 → v.AddCapacity amount = .error .cannotAddAmount) := by
  obtain ⟨hl0, hlc, hdl, hai⟩ := hw
  constructor
  · intro hpos
    refine ⟨_, AddCapacity_pos v amount hpos hdl, rfl, rfl, rfl, ?_, ?_⟩
    · show (v.data ++ List.replicate amount.toNat default).take v.len.toNat = v.Data
      rw [List.take_append_of_le_length (by omega)]
      rfl
    · refine ⟨hl0, show v.len ≤ v.capacity + amount by omega, ?_, hai⟩
      show ((v.data ++ List.replicate amount.toNat default).length : Int) = v.capacity + amount
      rw [List.length_append, List.length_replicate]
      push_cast
      omega
  · intro hneg
    unfold Vector.AddCapacity
    rw [if_pos hneg]

theorem C6_witness :
    Vector.WF (⟨[10, 20, 30], 3, 3, 2⟩ : Vector Int) ∧
    ((0 < (2 : Int) → ∃ w, Vector.AddCapacity (⟨[10, 20, 30], 3, 3, 2⟩ : Vector Int) 2 = .ok w ∧
      w.capacity = (⟨[10, 20, 30], 3, 3, 2⟩ : Vector Int).capacity + 2 ∧
      w.len = (⟨[10, 20, 30], 3, 3, 2⟩ : Vector Int).len ∧
      w.allocAmount = (⟨[10, 20, 30], 3, 3, 2⟩ : Vector Int).allocAmount ∧
      w.Data = (⟨[10, 20, 30], 3, 3, 2⟩ : Vector Int).Data ∧ w.WF) ∧
    ((2 : Int) ≤ 0 → Vector.AddCapacity (⟨[10, 20, 30], 3, 3, 2⟩ : Vector Int) 2 =
      .error .cannotAddAmount)) :=
  ⟨by decide, C6_addCapacity_spec _ 2 (by decide)⟩

/-- Claim **C7**: any index outside the valid range makes the checked operations
(`Get`, `Set`, `Remove`, and `Insert` for indices outside even the spec's
wider `0..len` insert range) fail with `IndexOutOfBounds`; the error
carries no new state, so the vector is untouched (no partial mutation). -/
theorem C7_invalid_index_noop [Inhabited α] (v : Vector α) (index : Int) (val : α)
    (h : index < 0 ∨ v.len ≤ index) :
    v.Get index = .error .outOfBounds ∧ v.Set index val = .error .outOfBounds ∧
    v.Remove index = .error .outOfBounds ∧
    (index < 0 ∨ v.len < index → v.Insert index val = .error .outOfBounds) :=
  ⟨Get_err v index h, Set_err v index val h, Remove_err v index h,
    fun _ => Insert_err v index val (by omega)⟩

theorem C7_witness :
    ((5 : Int) < 0 ∨ (⟨[10, 20, 30], 3, 3, 2⟩ : Vector Int).len ≤ 5) ∧
    (Vector.Get (⟨[10, 20, 30], 3, 3, 2⟩ : Vector Int) 5 = .error .outOfBounds ∧
      Vector.Set (⟨[10, 20, 30], 3, 3, 2⟩ : Vector Int) 5 7 = .error .outOfBounds ∧
      Vector.Remove (⟨[10, 20, 30], 3, 3, 2⟩ : Vector Int) 5 = .error .outOfBounds ∧
      ((5 : Int) < 0 ∨ (⟨[10, 20, 30], 3, 3, 2⟩ : Vector Int).len < 5 →
        Vector.Insert (⟨[10, 20, 30], 3, 3, 2⟩ : Vector Int) 5 7 = .error .outOfBounds)) :=
  ⟨by decide, C7_invalid_index_noop _ 5 7 (by decide)⟩

/-- Claim **C8** (counterexample).  The claim says `EmptyWithCapacity` rejects a
negative capacity with the `InvalidConfiguration` error
(`InvalidAllocAmount` in the code).  The code never validates `capacity`:
`EmptyWithCapacity(-1, 1)` dies in `make([]T, -1)` with the Go runtime
panic "makeslice: len out of range", not with the package's
configuration error. -/
theorem C8_counterexample :
    (EmptyWithCapacity (-1) 1 : Except VError (Vector Int)) = .error .makesliceLenOutOfRange ∧
    (EmptyWithCapacity (-1) 1 : Except VError (Vector Int)) ≠ .error .invalidAllocAmount := by
  decide

/-- Claim **C8** (amended): `Empty`, `FromSlice`, `EmptyWithCapacity` and
`SetAllocAmount` all fail with the `InvalidAllocAmount` error (the spec's
`InvalidConfiguration`) on a growth increment ≤ 0, `SetAllocAmount`
leaving the increment unchanged (the error carries no new state); for a
positive argument `SetAllocAmount` replaces the increment and succeeds;
`EmptyWithCapacity` on a negative capacity fails, but with the Go
runtime's makeslice panic rather than `InvalidConfiguration`. -/
theorem C8_config_validation [Inhabited α] (v : Vector α) (slice : List α)
    (capacity allocAmount newVal : Int) :
    (allocAmount ≤ 0 →
      (Empty allocAmount : Except VError (Vector α)) = .error .invalidAllocAmount ∧
      FromSlice slice allocAmount = .error .invalidAllocAmount ∧
      (EmptyWithCapacity capacity allocAmount : Except VError (Vector α)) =
        .error .invalidAllocAmount ∧
      v.SetAllocAmount allocAmount = .error .invalidAllocAmount) ∧
    (0 < allocAmount → capacity < 0 →
      (EmptyWithCapacity capacity allocAmount : Except VError (Vector α)) =
        .error .makesliceLenOutOfRange) ∧
    (0 < newVal → v.SetAllocAmount newVal = .ok { v with allocAmount := newVal }) := by
  refine ⟨?_, ?_, ?_⟩
  · intro hne
    refine ⟨?_, ?_, ?_, ?_⟩
    · unfold Empty
      rw [if_pos hne]
    · unfold FromSlice
      rw [if_pos hne]
    · unfold EmptyWithCapacity
      rw [if_pos hne]
    · unfold Vector.SetAllocAmount
      rw [if_pos hne]
  · intro hpos hneg
    unfold EmptyWithCapacity
    rw [if_neg (by omega), if_pos hneg]
  · intro hpos
    unfold Vector.SetAllocAmount
    rw [if_neg (by omega)]

theorem C8_witness :
    ((-2 : Int) ≤ 0 →
      (Empty (-2) : Except VError (Vector Int)) = .error .invalidAllocAmount ∧
      FromSlice ([5] : List Int) (-2) = .error .invalidAllocAmount ∧
      (EmptyWithCapacity (-3) (-2) : Except VError (Vector Int)) = .error .invalidAllocAmount ∧
      Vector.SetAllocAmount (⟨[1], 1, 1, 2⟩ : Vector Int) (-2) = .error .invalidAllocAmount) ∧
    (0 < (-2 : Int) → (-3 : Int) < 0 →
      (EmptyWithCapacity (-3) (-2) : Except VError (Vector Int)) = .error .makesliceLenOutOfRange) ∧
    (0 < (7 : Int) → Vector.SetAllocAmount (⟨[1], 1, 1, 2⟩ : Vector Int) 7 =
      .ok { (⟨[1], 1, 1, 2⟩ : Vector Int) with allocAmount := 7 }) :=
  C8_config_validation (⟨[1], 1, 1, 2⟩ : Vector Int) [5] (-3) (-2) 7

/-- Claim **C9**: on a well-formed vector, at any index accepted by `Insert`'s
validation, `Insert(index, val)` followed immediately by `Remove(index)`
returns exactly the inserted value and restores the original length
(round-trip law). -/
theorem C9_insert_remove_roundtrip [Inhabited α] (v : Vector α) (index : Int) (val : α)
    (hw : v.WF) (hb : v.IsInBounds index = true) :
    ∃ b w w2, v.Insert index val = .ok (b, w) ∧ w.Remove index = .ok (val, w2) ∧
      w2.len = v.len := by
  obtain ⟨h0, h1⟩ := IsInBounds_iff.mp hb
  obtain ⟨w, hins, hwf, hlen, _, _, hdata⟩ := Insert_spec v index val hw h0 h1
  have h1' : index < w.len := by omega
  obtain ⟨w2, hrem, _, hlen2, _, _, _⟩ := Remove_spec w index hwf h0 h1'
  have hx : w.Data.getD index.toNat default = val := by
    have ht : (v.Data.take index.toNat).length = index.toNat := by
      rw [List.length_take, Data_length v hw]
      omega
    have hg := getD_append_cons (v.Data.take index.toNat) (v.Data.drop index.toNat) val default
    rw [ht] at hg
    rw [hdata, hg]
  rw [hx] at hrem
  exact ⟨_, w, w2, hins, hrem, by omega⟩

theorem C9_witness :
    (Vector.WF (⟨[10, 20, 30], 3, 3, 2⟩ : Vector Int) ∧
      Vector.IsInBounds (⟨[10, 20, 30], 3, 3, 2⟩ : Vector Int) 1 = true) ∧
    (∃ b w w2, Vector.Insert (⟨[10, 20, 30], 3, 3, 2⟩ : Vector Int) 1 99 = .ok (b, w) ∧
      w.Remove 1 = .ok (99, w2) ∧ w2.len = (⟨[10, 20, 30], 3, 3, 2⟩ : Vector Int).len) :=
  ⟨⟨by decide, by decide⟩, C9_insert_remove_roundtrip _ 1 99 (by decide) (by decide)⟩

/-- Claim **C10**: the data-model invariants — `0 ≤ len ≤ capacity`, the backing
slice's length equals the `capacity` field, and `allocAmount ≥ 1` — are
established by every successful construction and preserved by every
public operation on a well-formed vector, so they hold on every vector
reachable through the public interface. -/
theorem C10_invariants [Inhabited α] (v : Vector α) (slice : List α)
    (capacity allocAmount index amount newVal : Int) (val : α) (hw : v.WF) :
    (∀ w, FromSlice slice allocAmount = .ok w → w.WF) ∧
    (∀ w, (Empty allocAmount : Except VError (Vector α)) = .ok w → w.WF) ∧
    (∀ w, (EmptyWithCapacity capacity allocAmount : Except VError (Vector α)) = .ok w → w.WF) ∧
    (v.PushBack val).2.WF ∧
    (∀ b w, v.PushFront val = .ok (b, w) → w.WF) ∧
    (∀ b w, v.Insert index val = .ok (b, w) → w.WF) ∧
    (∀ x w, v.Remove index = .ok (x, w) → w.WF) ∧
    (∀ w, v.Set index val = .ok w → w.WF) ∧
    (∀ w, v.AddCapacity amount = .ok w → w.WF) ∧
    (∀ w, v.SetAllocAmount newVal = .ok w → w.WF) := by
  refine ⟨?_, ?_, ?_, ?_, ?_, ?_, ?_, ?_, ?_, ?_⟩
  · intro w h
    unfold FromSlice at h
    by_cases hao : allocAmount ≤ 0
    · rw [if_pos hao] at h
      simp at h
    · rw [if_neg hao] at h
      simp only [Except.ok.injEq] at h
      subst h
      exact ⟨show (0 : Int) ≤ (slice.length : Int) by omega, le_refl _, rfl,
        show (1 : Int) ≤ allocAmount by omega⟩
  · intro w h
    unfold Empty at h
    by_cases hao : allocAmount ≤ 0
    · rw [if_pos hao] at h
      simp at h
    · rw [if_neg hao] at h
      simp only [Except.ok.injEq] at h
      subst h
      exact ⟨le_refl _, le_refl _, rfl, show (1 : Int) ≤ allocAmount by omega⟩
  · intro w h
    unfold EmptyWithCapacity at h
    by_cases hao : allocAmount ≤ 0
    · rw [if_pos hao] at h
      simp at h
    · rw [if_neg hao] at h
      by_cases hc : capacity < 0
      · rw [if_pos hc] at h
        simp at h
      · rw [if_neg hc] at h
        simp only [Except.ok.injEq] at h
        subst h
        refine ⟨le_refl _, show (0 : Int) ≤ capacity by omega, ?_,
          show (1 : Int) ≤ allocAmount by omega⟩
        show ((goMake capacity.toNat : List α).length : Int) = capacity
        simp only [goMake, List.length_replicate]
        omega
  · obtain ⟨w0, hpb, hwf0, _, _, _, _⟩ := PushBack_spec v val hw
    rw [hpb]
    exact hwf0
  · intro b w h
    by_cases hpos : 0 < v.len
    · obtain ⟨w', hpf, hwf', _, _, _, _⟩ := PushFront_spec v val hw hpos
      rw [hpf] at h
      simp only [Except.ok.injEq, Prod.mk.injEq] at h
      obtain ⟨_, hw'⟩ := h
      rw [← hw']
      exact hwf'
    · rw [PushFront_err v val (by omega)] at h
      simp at h
  · intro b w h
    obtain ⟨h0, h1⟩ := Insert_ok_bounds h
    obtain ⟨w', hins, hwf', _, _, _, _⟩ := Insert_spec v index val hw h0 h1
    rw [hins] at h
    simp only [Except.ok.injEq, Prod.mk.injEq] at h
    obtain ⟨_, hw'⟩ := h
    rw [← hw']
    exact hwf'
  · intro x w h
    obtain ⟨h0, h1⟩ := Remove_ok_bounds h
    obtain ⟨w', hrem, hwf', _, _, _, _⟩ := Remove_spec v index hw h0 h1
    rw [hrem] at h
    simp only [Except.ok.injEq, Prod.mk.injEq] at h
    obtain ⟨_, hw'⟩ := h
    rw [← hw']
    exact hwf'
  · intro w h
    obtain ⟨h0, h1⟩ := Set_ok_bounds h
    obtain ⟨hl0, hlc, hdl, hai⟩ := hw
    simp only [Vector.Set, boundsCheck_none h0 h1, Except.ok.injEq] at h
    subst h
    refine ⟨hl0, hlc, ?_, hai⟩
    show ((v.data.set index.toNat val).length : Int) = v.capacity
    rw [List.length_set]
    exact hdl
  · intro w h
    obtain ⟨hl0, hlc, hdl, hai⟩ := hw
    by_cases hpos : 0 < amount
    · rw [AddCapacity_pos v amount hpos hdl] at h
      simp only [Except.ok.injEq] at h
      subst h
      refine ⟨hl0, show v.len ≤ v.capacity + amount by omega, ?_, hai⟩
      show ((v.data ++ List.replicate amount.toNat default).length : Int) = v.capacity + amount
      rw [List.length_append, List.length_replicate]
      push_cast
      omega
    · unfold Vector.AddCapacity at h
      rw [if_pos (by omega)] at h
      simp at h
  · intro w h
    unfold Vector.SetAllocAmount at h
    by_cases hne : newVal ≤ 0
    · rw [if_pos hne] at h
      simp at h
    · rw [if_neg hne] at h
      simp only [Except.ok.injEq] at h
      subst h
      exact ⟨hw.1, hw.2.1, hw.2.2.1, show (1 : Int) ≤ newVal by omega⟩

theorem C10_witness :
    Vector.WF (⟨[4, 5, 6], 2, 3, 2⟩ : Vector Int) ∧
    ((∀ w, FromSlice ([7] : List Int) 3 = .ok w → w.WF) ∧
      (∀ w, (Empty 3 : Except VError (Vector Int)) = .ok w → w.WF) ∧
      (∀ w, (EmptyWithCapacity 4 3 : Except VError (Vector Int)) = .ok w → w.WF) ∧
      (Vector.PushBack (⟨[4, 5, 6], 2, 3, 2⟩ : Vector Int) 9).2.WF ∧
      (∀ b w, Vector.PushFront (⟨[4, 5, 6], 2, 3, 2⟩ : Vector Int) 9 = .ok (b, w) → w.WF) ∧
      (∀ b w, Vector.Insert (⟨[4, 5, 6], 2, 3, 2⟩ : Vector Int) 1 9 = .ok (b, w) → w.WF) ∧
      (∀ x w, Vector.Remove (⟨[4, 5, 6], 2, 3, 2⟩ : Vector Int) 1 = .ok (x, w) → w.WF) ∧
      (∀ w, Vector.Set (⟨[4, 5, 6], 2, 3, 2⟩ : Vector Int) 1 9 = .ok w → w.WF) ∧
      (∀ w, Vector.AddCapacity (⟨[4, 5, 6], 2, 3, 2⟩ : Vector Int) 2 = .ok w → w.WF) ∧
      (∀ w, Vector.SetAllocAmount (⟨[4, 5, 6], 2, 3, 2⟩ : Vector Int) 5 = .ok w → w.WF)) :=
  ⟨by decide, C10_invariants (⟨[4, 5, 6], 2, 3, 2⟩ : Vector Int) [7] 4 3 1 2 5 9 (by decide)⟩

end VectorGo
